import Mathlib

/-!
# JourneyCompass planning engine: a shallow embedding with proofs

This file embeds the deterministic planning/allocation core of the
JourneyCompass repository in Lean 4 and proves (or refutes) the frozen
claims about it.  Embedded components:

* `calculateGasStops` — the fuel-range stop simulator of `server/maps.ts`.
  Its `while` loop is embedded with an explicit iteration budget (a `Nat`
  argument); `none` means the budget was exhausted, so termination facts
  are theorems of the form "some budget returns `some`".
* `buildTimeline`, `calculateTimeBudget`, `allocateDwellTime` — the
  timeline/budget code of `VOICE_CONVERSATION_DESIGN.md`.  JavaScript
  `Map` objects are embedded as association lists; `Date` instants are
  rationals counting minutes.  Paths on which the JavaScript code would
  fault (indexing a missing task) or poison the arithmetic with `NaN`
  (a dwell-time category absent from the table) return `none`.
* the wall-clock resolution logic of `parseTimeConstraint` and the task
  extractor `extractTasks` of the time-constraint parser
  (`server/TESTING_GUIDE.md` and the parser module it reproduces).  The
  extractor's regular expressions are embedded with a small backtracking
  matcher whose candidate order mirrors the JavaScript engine
  (leftmost position first, leftmost alternative first, greedy/lazy
  quantifier order).

Numbers are embedded as `Rat` (the source uses JavaScript numbers on
values where the exact decimal arithmetic of the scenarios is
representable); instants are rationals in minutes.
-/

/-! ## Fuel-range stop simulator (`server/maps.ts`, `calculateGasStops`) -/

/-- A latitude/longitude pair, as in the Google route legs consumed by
`calculateGasStops`. -/
structure LatLng where
  lat : Rat
  lng : Rat
deriving DecidableEq, Repr

/-- The fields of a route leg read by `calculateGasStops`:
`leg.distance.value` (meters) and the leg endpoints. -/
structure GasLeg where
  distanceValue : Rat
  start_location : LatLng
  end_location : LatLng
deriving DecidableEq, Repr

/-- A refuel stop: cumulative distance (miles) and interpolated location,
as pushed by `calculateGasStops`. -/
structure GasStop where
  distance : Rat
  location : LatLng
deriving DecidableEq, Repr

/-- Loop state of `calculateGasStops`: `currentFuel`,
`totalDistanceCovered`, and the `stops` accumulated so far. -/
structure GasState where
  currentFuel : Rat
  totalDistanceCovered : Rat
  stops : List GasStop
deriving DecidableEq, Repr

/-- The meters-per-mile constant `1609.34` of `calculateGasStops`. -/
def metersPerMile : Rat := 160934 / 100

/-- The linear interpolation of a stop location between the leg endpoints,
as computed inline in `calculateGasStops`. -/
def interpolatePoint (leg : GasLeg) (progressRatio : Rat) : LatLng :=
  { lat := leg.start_location.lat +
      (leg.end_location.lat - leg.start_location.lat) * progressRatio
    lng := leg.start_location.lng +
      (leg.end_location.lng - leg.start_location.lng) * progressRatio }

/-- The inner `while (remainingLegDistance > 0)` loop of
`calculateGasStops`, with an explicit iteration budget: `none` means the
budget ran out before the leg was exhausted. -/
def gasLegLoop (vehicleRange minFuelRemaining legDistanceMiles : Rat)
    (leg : GasLeg) : Nat → Rat → GasState → Option GasState
  | 0, remainingLegDistance, s =>
      if remainingLegDistance > 0 then none else some s
  | Nat.succ m, remainingLegDistance, s =>
      if remainingLegDistance > 0 then
        let distanceToRefuel := s.currentFuel - minFuelRemaining
        if remainingLegDistance ≤ distanceToRefuel then
          some { currentFuel := s.currentFuel - remainingLegDistance
                 totalDistanceCovered := s.totalDistanceCovered + remainingLegDistance
                 stops := s.stops }
        else
          let stopDistance := s.totalDistanceCovered + distanceToRefuel
          let progressRatio := distanceToRefuel / legDistanceMiles
          gasLegLoop vehicleRange minFuelRemaining legDistanceMiles leg m
            (remainingLegDistance - distanceToRefuel)
            { currentFuel := vehicleRange
              totalDistanceCovered := stopDistance
              stops := s.stops ++
                [{ distance := stopDistance
                   location := interpolatePoint leg progressRatio }] }
      else some s

/-- The `for (const leg of legs)` loop of `calculateGasStops`; each leg's
inner loop gets iteration budget `n`. -/
def gasLegsLoop (vehicleRange minFuelRemaining : Rat) (n : Nat) :
    List GasLeg → GasState → Option GasState
  | [], s => some s
  | leg :: rest, s =>
      let legDistanceMiles := leg.distanceValue / metersPerMile
      match gasLegLoop vehicleRange minFuelRemaining legDistanceMiles leg n
          legDistanceMiles s with
      | none => none
      | some s2 => gasLegsLoop vehicleRange minFuelRemaining n rest s2

/-- `calculateGasStops(route, fuelLevel, vehicleRange, minimumFuelThreshold)`
of `server/maps.ts`, with iteration budget `n` for each leg's `while`
loop. -/
def calculateGasStops (n : Nat) (legs : List GasLeg)
    (fuelLevel vehicleRange minimumFuelThreshold : Rat) :
    Option (List GasStop) :=
  let currentFuel := fuelLevel * vehicleRange
  let minFuelRemaining := minimumFuelThreshold * vehicleRange
  let s0 : GasState :=
    { currentFuel := currentFuel, totalDistanceCovered := 0, stops := [] }
  match gasLegsLoop vehicleRange minFuelRemaining n legs s0 with
  | none => none
  | some s => some s.stops

/-- A single 500-mile route leg (the `distance.value` field is in meters:
`500 × 1609.34 = 804670`) running from latitude 0 to latitude 500 at
longitude 0, used in the concrete fuel scenarios. -/
def leg500 : GasLeg :=
  { distanceValue := 804670
    start_location := { lat := 0, lng := 0 }
    end_location := { lat := 500, lng := 0 } }

/-! ## Time budget, dwell allocation, timeline
(`VOICE_CONVERSATION_DESIGN.md`: `calculateTimeBudget`,
`allocateDwellTime`, `buildTimeline`) -/

/-- The fields of a task consumed by the budget/timeline code:
`description` (the allocation map key) and `category`. -/
structure TaskD where
  description : String
  category : Option String
deriving DecidableEq, Repr

/-- A JavaScript `Map.set`: replace the value at an existing key in
place, else append. -/
def mapSet : List (String × Rat) → String → Rat → List (String × Rat)
  | [], k, v => [(k, v)]
  | (k', v') :: rest, k, v =>
      if k' = k then (k, v) :: rest else (k', v') :: mapSet rest k v

/-- A JavaScript `Map.get`. -/
def mapGet : List (String × Rat) → String → Option Rat
  | [], _ => none
  | (k', v') :: rest, k => if k' = k then some v' else mapGet rest k

/-- The `TYPICAL_DWELL_TIMES` table (minutes by category). -/
def TYPICAL_DWELL_TIMES : List (String × Rat) :=
  [("school", 5), ("daycare", 5), ("grocery", 20), ("quick_shop", 10),
   ("restaurant", 15), ("sit_down", 45), ("coffee", 10), ("post_office", 10),
   ("pharmacy", 10), ("bank", 15), ("gas", 5), ("default", 10)]

/-- `TYPICAL_DWELL_TIMES[task.category || 'default']`: a missing or empty
(falsy) category reads the `default` row; a category string absent from
the table yields `none` (the source would read `undefined` and poison the
arithmetic with `NaN`). -/
def typicalLookup (category : Option String) : Option Rat :=
  match category with
  | none => mapGet TYPICAL_DWELL_TIMES "default"
  | some c =>
      if c = "" then mapGet TYPICAL_DWELL_TIMES "default"
      else mapGet TYPICAL_DWELL_TIMES c

/-- Step 1 of `allocateDwellTime`: assign each task its typical time and
accumulate `totalTypical`. -/
def allocStep1 : List TaskD → List (String × Rat) → Rat →
    Option (List (String × Rat) × Rat)
  | [], m, tot => some (m, tot)
  | t :: ts, m, tot =>
      match typicalLookup t.category with
      | none => none
      | some typ => allocStep1 ts (mapSet m t.description typ) (tot + typ)

/-- Step 3 of `allocateDwellTime`: rescale each task's entry to
`Math.max(MIN_DWELL, Math.floor(typical * ratio))` with `MIN_DWELL = 5`,
reading `typical` back from the allocation map. -/
def allocStep3 (scaleFactor : Rat) : List TaskD → List (String × Rat) →
    Option (List (String × Rat))
  | [], m => some m
  | t :: ts, m =>
      match mapGet m t.description with
      | none => none
      | some typ =>
          allocStep3 scaleFactor ts
            (mapSet m t.description
              (max (5 : Rat) ((⌊typ * scaleFactor⌋ : Int) : Rat)))

/-- `allocateDwellTime(tasks, totalDwellTime)`.  When `ratio < 0.7` the
source additionally logs a console warning, which has no effect on the
returned map. -/
def allocateDwellTime (tasks : List TaskD) (totalDwellTime : Rat) :
    Option (List (String × Rat)) :=
  match allocStep1 tasks [] 0 with
  | none => none
  | some (m, totalTypical) =>
      allocStep3 (totalDwellTime / totalTypical) tasks m

/-- The kinds of `TimeConstraint` (`type` field of the parser's
output). -/
inductive TCKind where
  | duration
  | deadline
  | arrival_time
deriving DecidableEq, Repr

/-- A parsed time constraint as consumed by `calculateTimeBudget`:
`value` is an absolute instant in minutes for `deadline`/`arrival_time`
and a minute count for `duration`. -/
structure TimeConstraintD where
  tcType : TCKind
  value : Rat
deriving DecidableEq, Repr

/-- The fields of a route leg read by the timeline/budget code:
`leg.duration.value` (seconds) and `leg.end_address`. -/
structure RouteLegT where
  durationValue : Rat
  end_address : String
deriving DecidableEq, Repr

/-- The `TimeBudget` record returned by `calculateTimeBudget`. -/
structure TimeBudget where
  totalAvailable : Rat
  drivingTime : Rat
  bufferTime : Rat
  dwellTime : Rat
  stopAllocations : List (String × Rat)
deriving DecidableEq, Repr

/-- `calculateTimeBudget(route, timeConstraint, tasks)` with the ambient
`new Date()` given as the `now` parameter.  Note that only the
`deadline` branch subtracts `now`; every other constraint type
(including `arrival_time`) reads `timeConstraint.value` directly. -/
def calculateTimeBudget (legs : List RouteLegT)
    (timeConstraint : TimeConstraintD) (tasks : List TaskD) (now : Rat) :
    Option TimeBudget :=
  let totalAvailable : Rat :=
    if timeConstraint.tcType = TCKind.deadline then timeConstraint.value - now
    else timeConstraint.value
  let drivingTime := (legs.map (fun l => l.durationValue)).sum / 60
  let bufferTime := totalAvailable * (10 / 100)
  let dwellTime := totalAvailable - drivingTime - bufferTime
  match allocateDwellTime tasks dwellTime with
  | none => none
  | some stopAllocations =>
      some { totalAvailable := totalAvailable
             drivingTime := drivingTime
             bufferTime := bufferTime
             dwellTime := dwellTime
             stopAllocations := stopAllocations }

/-- The two timeline step kinds. -/
inductive StepKind where
  | drive
  | stop
deriving DecidableEq, Repr

/-- A timeline step as pushed by `buildTimeline` (instants in
minutes). -/
structure TimelineStep where
  kind : StepKind
  startTime : Rat
  endTime : Rat
  duration : Rat
  location : Option String
  description : String
deriving DecidableEq, Repr

/-- The `Timeline` record returned by `buildTimeline`. -/
structure Timeline where
  steps : List TimelineStep
  totalDuration : Rat
  arrivalTime : Rat
deriving DecidableEq, Repr

/-- `timeBudget.stopAllocations.get(task.description) || 10`: a missing
entry — or a present entry `0`, which is falsy — yields 10. -/
def dwellFor (alloc : List (String × Rat)) (desc : String) : Rat :=
  match mapGet alloc desc with
  | some v => if v = 0 then 10 else v
  | none => 10

/-- The `route.legs.forEach((leg, index) => ...)` body of
`buildTimeline`: `total` is `route.legs.length`, `i` the current index,
and the running clock threads through.  A stop step is pushed when
`index < route.legs.length - 1 || route.legs.length === 1`; reading a
missing `tasks[index]` (on which the source would fault) yields
`none`. -/
def buildSteps (alloc : List (String × Rat)) (tasks : List TaskD)
    (total : Nat) : List RouteLegT → Nat → Rat →
    Option (List TimelineStep × Rat)
  | [], _, clock => some ([], clock)
  | leg :: rest, i, clock =>
      let driveDuration := leg.durationValue / 60
      let clock1 := clock + driveDuration
      let driveStep : TimelineStep :=
        { kind := StepKind.drive
          startTime := clock
          endTime := clock1
          duration := driveDuration
          location := none
          description := "Drive to " ++ leg.end_address }
      if i < total - 1 ∨ total = 1 then
        match tasks.get? i with
        | none => none
        | some task =>
            let dwellDuration := dwellFor alloc task.description
            let clock2 := clock1 + dwellDuration
            let stopStep : TimelineStep :=
              { kind := StepKind.stop
                startTime := clock1
                endTime := clock2
                duration := dwellDuration
                location := some leg.end_address
                description := task.description }
            match buildSteps alloc tasks total rest (i + 1) clock2 with
            | none => none
            | some (steps, c) => some (driveStep :: stopStep :: steps, c)
      else
        match buildSteps alloc tasks total rest (i + 1) clock1 with
        | none => none
        | some (steps, c) => some (driveStep :: steps, c)

/-- `buildTimeline(route, timeBudget, tasks)` with the ambient
`new Date()` given as `now` and the budget's allocation map given as
`alloc`.  An empty step list (empty route) yields `none`: the source
would fault reading `steps[0].startTime`. -/
def buildTimeline (legs : List RouteLegT) (alloc : List (String × Rat))
    (tasks : List TaskD) (now : Rat) : Option Timeline :=
  match buildSteps alloc tasks legs.length legs 0 now with
  | none => none
  | some (steps, clock) =>
      match steps with
      | [] => none
      | s0 :: _ =>
          some { steps := steps
                 totalDuration := clock - s0.startTime
                 arrivalTime := clock }

/-! ## Wall-clock resolution in `parseTimeConstraint`
(`server/TESTING_GUIDE.md`, patterns 2 and 3)

Instants are minutes counted from the midnight opening day 0; a day has
1440 minutes (the `Date` arithmetic of the source, without daylight
saving).  `setHours(h, m, 0, 0)` is `now / 1440 * 1440 + h * 60 + m` and
`setDate(getDate() + 1)` adds 1440. -/

/-- An `am`/`pm` marker captured from the time literal. -/
inductive Meridiem where
  | am
  | pm
deriving DecidableEq, Repr

/-- `now.getHours()`. -/
def hourOfDay (now : Nat) : Nat := now % 1440 / 60

/-- `d.setHours(h, m, 0, 0)` applied to an instant of the same day as
`now`. -/
def todayInstant (now h m : Nat) : Nat := now / 1440 * 1440 + h * 60 + m

/-- The 24-hour conversion of the arrival pattern (pattern 2 of
`parseTimeConstraint`): `pm` adds 12 except at 12, `am 12` becomes 0, and
a time literal with no meridiem marker is kept as written. -/
def resolveHourArrival (hours : Nat) (meridiem : Option Meridiem) : Nat :=
  if meridiem = some Meridiem.pm ∧ hours ≠ 12 then hours + 12
  else if meridiem = some Meridiem.am ∧ hours = 12 then 0
  else hours

/-- The 24-hour conversion of the plain deadline pattern (pattern 3 of
`parseTimeConstraint`): as in the arrival pattern, plus the no-meridiem
rule — an hour below 12 with no marker is moved to PM when
`now.getHours() >= hours`. -/
def resolveHourDeadline (hours : Nat) (meridiem : Option Meridiem)
    (now : Nat) : Nat :=
  if meridiem = some Meridiem.pm ∧ hours ≠ 12 then hours + 12
  else if meridiem = some Meridiem.am ∧ hours = 12 then 0
  else if meridiem = none ∧ hours < 12 ∧ hours ≤ hourOfDay now then hours + 12
  else hours

/-- The absolute instant of an `arrival_time` constraint built by
pattern 2: set the resolved hour on today's date, then roll forward one
calendar day if the instant is in the past. -/
def arrivalValue (hours minutes : Nat) (meridiem : Option Meridiem)
    (now : Nat) : Nat :=
  let t := todayInstant now (resolveHourArrival hours meridiem) minutes
  if t < now then t + 1440 else t

/-- The absolute instant of a `deadline` constraint built by pattern 3:
set the resolved hour on today's date, then roll forward one calendar
day if the instant is in the past. -/
def deadlineValue (hours minutes : Nat) (meridiem : Option Meridiem)
    (now : Nat) : Nat :=
  let t := todayInstant now (resolveHourDeadline hours meridiem now) minutes
  if t < now then t + 1440 else t

/-! ## Task extraction (`extractTasks` of the time-constraint parser)

The extractor's regular expressions use only literal words, `\s+`,
greedy optional groups, alternation, `\b`, the lazy class `[a-zA-Z\s]+?`
and `$`.  `matchCands` lists the states a pattern can reach from a given
position in backtracking priority order — leftmost alternative first,
greedy quantifier longest first, lazy quantifier shortest first — so its
head is the match the JavaScript engine commits to, and the scanners
below reproduce `String.match(/.../gi)` and `RegExp.exec` with a `g`
flag: positions tried left to right, `lastIndex` advanced past each
match (by one on an empty match).  Matching is case-insensitive (`i`
flag) at the characters: literals compare lowercased. -/

/-- A word character, as in the JavaScript `\b` boundary:
`[A-Za-z0-9_]`. -/
def isWordChar (c : Char) : Bool := c.isAlpha || c.isDigit || c = '_'

/-- Whether the character left of the current position is a word
character (`none` at the start of the input). -/
def isWordOpt : Option Char → Bool
  | none => false
  | some c => isWordChar c

/-- Whether the character at the current position is a word character
(`false` at the end of the input). -/
def isWordHead : List Char → Bool
  | [] => false
  | c :: _ => isWordChar c

/-- The regular-expression constructs used by the extractor's
patterns. -/
inductive RE where
  | eps
  | ch (c : Char)
  | seq (r1 r2 : RE)
  | alt (r1 r2 : RE)
  | opt (r : RE)
  | plusGreedy (p : Char → Bool)
  | plusLazy (p : Char → Bool)
  | wordB
  | eos

/-- The position state after consuming `k` characters of `s`: the last
consumed character (for `\b`) and the remaining input. -/
def stateAfter (p : Option Char) (s : List Char) (k : Nat) :
    Option Char × List Char :=
  match (s.take k).getLast? with
  | some c => (some c, s.drop k)
  | none => (p, s)

/-- All states a pattern can reach from position `(p, s)`, in
backtracking priority order; the head is the state the JavaScript
engine commits to. -/
def matchCands : RE → Option Char → List Char →
    List (Option Char × List Char)
  | RE.eps, p, s => [(p, s)]
  | RE.ch _, _, [] => []
  | RE.ch c, _, x :: xs =>
      if x.toLower = c.toLower then [(some x, xs)] else []
  | RE.seq r1 r2, p, s =>
      (matchCands r1 p s).flatMap (fun st => matchCands r2 st.1 st.2)
  | RE.alt r1 r2, p, s => matchCands r1 p s ++ matchCands r2 p s
  | RE.opt r, p, s => matchCands r p s ++ [(p, s)]
  | RE.plusGreedy f, p, s =>
      let run := (s.takeWhile f).length
      (List.range run).map (fun j => stateAfter p s (run - j))
  | RE.plusLazy f, p, s =>
      let run := (s.takeWhile f).length
      (List.range run).map (fun j => stateAfter p s (j + 1))
  | RE.wordB, p, s => if isWordOpt p != isWordHead s then [(p, s)] else []
  | RE.eos, p, s => if s.isEmpty then [(p, s)] else []

/-- The length of the match the engine commits to at this position, if
any. -/
def firstMatchLen (r : RE) (p : Option Char) (s : List Char) :
    Option Nat :=
  match matchCands r p s with
  | [] => none
  | st :: _ => some (s.length - st.2.length)

/-- The scanning loop of `message.match(pattern, 'gi')`, structurally
recursive on a step budget: each step handles one scan position and
either moves one character right or resumes after the committed
match. -/
def scanMatchesF (r : RE) : Nat → Option Char → List Char →
    List (List Char)
  | 0, _, _ => []
  | Nat.succ f, p, s =>
      match s with
      | [] =>
          match firstMatchLen r p [] with
          | some _ => [[]]
          | none => []
      | c :: rest =>
          match firstMatchLen r p (c :: rest) with
          | none => scanMatchesF r f (some c) rest
          | some 0 => [] :: scanMatchesF r f (some c) rest
          | some (k + 1) =>
              (c :: rest.take k) ::
                scanMatchesF r f ((c :: rest.take k).getLast?) (rest.drop k)

/-- `message.match(pattern, 'gi')`: the list of matched substrings,
scanning left to right from the start and resuming after each match.
Each step consumes at least one character, so `s.length + 1` steps
always complete the scan. -/
def scanMatches (r : RE) (s : List Char) : List (List Char) :=
  scanMatchesF r (s.length + 1) none s

/-- A literal word (each character matched case-insensitively). -/
def strRE (w : String) : RE :=
  w.data.foldr (fun c r => RE.seq (RE.ch c) r) RE.eps

/-- `\s+`. -/
def wsPlus : RE := RE.plusGreedy Char.isWhitespace

/-- A sequence of constructs. -/
def catRE : List RE → RE
  | [] => RE.eps
  | [r] => r
  | r :: rest => RE.seq r (catRE rest)

/-- Literal words joined by `\s+`. -/
def phr : List String → RE
  | [] => RE.eps
  | [w] => strRE w
  | w :: rest => catRE [strRE w, wsPlus, phr rest]

/-- An alternation, leftmost alternative first. -/
def altN : List RE → RE
  | [] => RE.eps
  | [r] => r
  | r :: rest => RE.alt r (altN rest)

/-- Task priorities. -/
inductive PriorityD where
  | high
  | medium
  | low
deriving DecidableEq, Repr

/-- A row of the extractor's `taskPatterns` table. -/
structure TaskPattern where
  re : RE
  category : String
  priority : PriorityD
  estimatedDuration : Rat
  description : String

/-- A task as produced by `extractTasks`. -/
structure TaskE where
  description : String
  location : Option String
  category : String
  estimatedDuration : Rat
  priority : PriorityD
  keywords : List String
deriving DecidableEq, Repr

/-- The `taskPatterns` table of `extractTasks`, in source order. -/
def taskPatternTable : List TaskPattern :=
  [{ re := catRE [strRE "pick", wsPlus, strRE "up", wsPlus,
        RE.opt (catRE [strRE "the", wsPlus]),
        altN [strRE "kids", strRE "children", strRE "child", strRE "son",
          strRE "daughter"]]
     category := "school", priority := PriorityD.high
     estimatedDuration := 5, description := "Pick up kids" },
   { re := catRE [strRE "drop", wsPlus, strRE "off", wsPlus,
        RE.opt (catRE [strRE "the", wsPlus]),
        altN [strRE "kids", strRE "children", strRE "child", strRE "son",
          strRE "daughter"]]
     category := "school", priority := PriorityD.high
     estimatedDuration := 5, description := "Drop off kids" },
   { re := catRE [altN [strRE "get", phr ["pick", "up"], strRE "buy",
        strRE "grab"], wsPlus, RE.opt (catRE [strRE "some", wsPlus]),
        altN [strRE "groceries", strRE "food", strRE "supplies"]]
     category := "grocery", priority := PriorityD.medium
     estimatedDuration := 20, description := "Get groceries" },
   { re := catRE [altN [phr ["go", "to"], phr ["stop", "at"], strRE "visit",
        catRE [strRE "route", wsPlus, RE.opt (catRE [strRE "me", wsPlus]),
          strRE "to"]], wsPlus, RE.opt (catRE [strRE "the", wsPlus]),
        altN [strRE "supermarket", phr ["grocery", "store"], strRE "market"]]
     category := "grocery", priority := PriorityD.medium
     estimatedDuration := 20, description := "Supermarket" },
   { re := catRE [RE.wordB, altN [phr ["chinese", "restaurant"],
        phr ["chinese", "food"], strRE "chinese"], RE.wordB]
     category := "restaurant", priority := PriorityD.medium
     estimatedDuration := 15, description := "Chinese restaurant" },
   { re := catRE [RE.wordB, altN [strRE "restaurant", strRE "food",
        strRE "dinner", strRE "lunch"], RE.wordB]
     category := "restaurant", priority := PriorityD.medium
     estimatedDuration := 15, description := "Restaurant" },
   { re := catRE [altN [strRE "get", strRE "grab", phr ["pick", "up"]],
        wsPlus, RE.opt (catRE [strRE "some", wsPlus]), strRE "coffee"]
     category := "coffee", priority := PriorityD.low
     estimatedDuration := 10, description := "Get coffee" },
   { re := altN [phr ["post", "office"], phr ["mail", "package"],
        phr ["send", "package"]]
     category := "post_office", priority := PriorityD.medium
     estimatedDuration := 10, description := "Post office" },
   { re := altN [strRE "pharmacy",
        catRE [strRE "pick", wsPlus, strRE "up", wsPlus, strRE "medicine"],
        strRE "prescription"]
     category := "pharmacy", priority := PriorityD.high
     estimatedDuration := 10, description := "Pharmacy" },
   { re := altN [phr ["gas", "station"], phr ["get", "gas"],
        phr ["fill", "up"]]
     category := "gas", priority := PriorityD.medium
     estimatedDuration := 5, description := "Gas station" },
   { re := altN [strRE "bank", strRE "atm", phr ["withdraw", "money"]]
     category := "bank", priority := PriorityD.medium
     estimatedDuration := 15, description := "Bank" },
   { re := altN [strRE "gym", strRE "workout", strRE "exercise"]
     category := "gym", priority := PriorityD.medium
     estimatedDuration := 60, description := "Gym" }]

/-- The prefix of the generic stop pattern:
`(stop\s+at|go\s+to|visit)\s+(?:the\s+)?`. -/
def genericPrefixRE : RE :=
  catRE [altN [phr ["stop", "at"], phr ["go", "to"], strRE "visit"],
    wsPlus, RE.opt (catRE [strRE "the", wsPlus])]

/-- The terminator of the generic stop pattern:
`(?:\s+and|\s+by|\s+in|$)`. -/
def genericTermRE : RE :=
  altN [catRE [wsPlus, strRE "and"], catRE [wsPlus, strRE "by"],
    catRE [wsPlus, strRE "in"], RE.eos]

/-- The class of the generic pattern's lazy group: `[a-zA-Z\s]`. -/
def genericClass (c : Char) : Bool := c.isAlpha || Char.isWhitespace c

/-- Lazy expansion of `([a-zA-Z\s]+?)` followed by the terminator:
try group lengths `1, 2, ...` and return the first length
(with the terminator's length) at which the terminator matches. -/
def genericGroup (p1 : Option Char) (s1 : List Char) :
    Option (Nat × Nat) :=
  (List.range (s1.takeWhile genericClass).length).findSome? (fun j =>
    let st := stateAfter p1 s1 (j + 1)
    match matchCands genericTermRE st.1 st.2 with
    | [] => none
    | st2 :: _ => some (j + 1, st.2.length - st2.2.length))

/-- The committed match of the whole generic pattern at one position:
`(whole length, prefix length, group-2 length)`. -/
def genericAt (p : Option Char) (s : List Char) :
    Option (Nat × Nat × Nat) :=
  (matchCands genericPrefixRE p s).findSome? (fun st =>
    let prefixLen := s.length - st.2.length
    match genericGroup st.1 st.2 with
    | none => none
    | some (k, termLen) => some (prefixLen + k + termLen, prefixLen, k))

/-- The scanning loop of the generic pattern's `exec` iteration,
structurally recursive on a step budget. -/
def scanGenericF : Nat → Option Char → List Char →
    List (List Char × List Char)
  | 0, _, _ => []
  | Nat.succ f, p, s =>
      match s with
      | [] => []
      | c :: rest =>
          match genericAt p (c :: rest) with
          | none => scanGenericF f (some c) rest
          | some (whole, pre, k) =>
              let m := (c :: rest).take whole
              (m, ((c :: rest).drop pre).take k) ::
                scanGenericF f m.getLast? (rest.drop (whole - 1))

/-- The `while ((genericMatch = genericStopPattern.exec(message)))` loop:
each element is `(genericMatch[0], genericMatch[2])`.  Each step consumes
at least one character, so `s.length + 1` steps always complete the
scan. -/
def scanGeneric (s : List Char) : List (List Char × List Char) :=
  scanGenericF (s.length + 1) none s

/-- Lowercasing of a character list (`String.toLowerCase`). -/
def lcList (l : List Char) : List Char := l.map Char.toLower

/-- `String.includes`: substring containment. -/
def listContainsSub (l sub : List Char) : Bool :=
  (List.range (l.length + 1)).any (fun i => sub.isPrefixOf (l.drop i))

/-- `String.trim`. -/
def trimChars (l : List Char) : List Char :=
  ((l.dropWhile Char.isWhitespace).reverse.dropWhile Char.isWhitespace).reverse

/-- `extractTasks(message)`: run every `taskPatterns` row globally over
the message, skipping a match whose exact lowercased text was already
matched; then run the generic stop pattern, skipping a location that
overlaps an already-extracted task description (in either containment
direction). -/
def extractTasks (message : String) : List TaskE :=
  let s := message.data
  let specific := taskPatternTable.foldl (fun acc tp =>
    (scanMatches tp.re s).foldl (fun acc2 m =>
      let mLower := lcList m
      if acc2.2.contains mLower then acc2
      else
        (acc2.1 ++ [{ description := tp.description
                      location := none
                      category := tp.category
                      estimatedDuration := tp.estimatedDuration
                      priority := tp.priority
                      keywords := [String.mk m] }],
         acc2.2 ++ [mLower])) acc)
    (([] : List TaskE), ([] : List (List Char)))
  (scanGeneric s).foldl (fun tasks gm =>
    let location := trimChars gm.2
    let locLower := lcList location
    let alreadyExists := tasks.any (fun t =>
      listContainsSub (lcList t.description.data) locLower ||
      listContainsSub locLower (lcList t.description.data))
    if alreadyExists then tasks
    else tasks ++ [{ description := String.mk location
                     location := some (String.mk location)
                     category := "generic"
                     estimatedDuration := 10
                     priority := PriorityD.medium
                     keywords := [String.mk gm.1] }]) specific.1

/-! ## Claims -/

/-- C1: with `fuelLevel = 1.0`, `vehicleRangeMiles = 300`,
`minFuelThreshold = 0.2`, the 500-mile single-leg route yields exactly
two gas stops, at cumulative distances 240 and 480 miles. -/
theorem c1_single_leg_two_stops :
    (calculateGasStops 10 [leg500] 1 300 (1/5)).map
        (fun stops => stops.map GasStop.distance) =
      some [240, 480] := by
  norm_num [calculateGasStops, gasLegsLoop, gasLegLoop, leg500,
    metersPerMile, interpolatePoint]

/-- C2 fails on the code: on the 500-mile leg from latitude 0 to
latitude 500, both emitted stops carry the interpolated location
latitude 240, although the second stop is emitted at cumulative in-leg
distance 480 and interpolation at fraction `480/500` would give
latitude 480: the progress fraction `distanceToRefuel / legDistanceMiles`
does not account for leg distance consumed before the previous refuel. -/
theorem c2_second_stop_location_not_at_threshold :
    (calculateGasStops 10 [leg500] 1 300 (1/5)) =
        some [{ distance := 240, location := { lat := 240, lng := 0 } },
              { distance := 480, location := { lat := 240, lng := 0 } }] ∧
      interpolatePoint leg500 (480/500) = { lat := 480, lng := 0 } ∧
      ({ lat := 240, lng := 0 } : LatLng) ≠ { lat := 480, lng := 0 } := by
  refine ⟨?_, ?_, ?_⟩
  · norm_num [calculateGasStops, gasLegsLoop, gasLegLoop, leg500,
      metersPerMile, interpolatePoint]
  · norm_num [interpolatePoint, leg500]
  · intro h
    have := congrArg LatLng.lat h
    norm_num at this

/-- C6 fails on the code: `extractTasks "chinese restaurant"` yields two
tasks, not one — the cuisine pattern matches the phrase
`"chinese restaurant"` while the bare pattern matches the different
phrase `"restaurant"`, so the dedup by exact matched text does not
collapse them. -/
theorem c6_counterexample :
    (extractTasks "chinese restaurant").length = 2 ∧
      ¬ (extractTasks "chinese restaurant").length = 1 := by
  decide

/-- C6 amended: `extract("chinese restaurant")` yields exactly two
`restaurant` tasks, one from the cuisine-specific pattern (matched
phrase `"chinese restaurant"`) and one from the bare-restaurant pattern
(matched phrase `"restaurant"`); the dedup by matched phrase does not
collapse them because the phrases differ. -/
theorem c6_two_restaurant_tasks :
    extractTasks "chinese restaurant" =
      [{ description := "Chinese restaurant"
         location := none
         category := "restaurant"
         estimatedDuration := 15
         priority := PriorityD.medium
         keywords := ["chinese restaurant"] },
       { description := "Restaurant"
         location := none
         category := "restaurant"
         estimatedDuration := 15
         priority := PriorityD.medium
         keywords := ["restaurant"] }] := by
  decide

/-- C7 fails on the code: the arrival-at-location pattern does not apply
the no-meridiem PM rule.  At `now = 360` (6:00 AM) the literal hour 5
with no marker resolves to 5:00 AM rolled to the next day
(minute 1740), not 17:00 (minute 1020) as the rule would demand. -/
theorem c7_counterexample :
    arrivalValue 5 0 none 360 = 1740 ∧
      hourOfDay (arrivalValue 5 0 none 360) = 5 ∧
      ¬ hourOfDay (arrivalValue 5 0 none 360) = 17 := by
  decide

/-- C7 amended: the no-meridiem disambiguation applies only to the plain
deadline pattern — with no marker and hour below 12 already reached by
the clock, the deadline pattern resolves to PM (`hours + 12`) — while
the arrival-at-location pattern always keeps the literal hour. -/
theorem c7_pm_rule_only_plain_deadline :
    (∀ h now, h < 12 → h ≤ hourOfDay now →
        resolveHourDeadline h none now = h + 12) ∧
      (∀ h, resolveHourArrival h none = h) := by
  constructor
  · intro h now h1 h2
    simp [resolveHourDeadline, h1, h2]
  · intro h
    simp [resolveHourArrival]

/-- Witness for `c7_pm_rule_only_plain_deadline` at hour 5,
`now = 360` (6:00 AM). -/
theorem c7_pm_rule_witness :
    resolveHourDeadline 5 none 360 = 17 ∧ resolveHourArrival 5 none = 5 :=
  ⟨by simpa using c7_pm_rule_only_plain_deadline.1 5 360 (by decide) (by decide),
   c7_pm_rule_only_plain_deadline.2 5⟩

/-- C8: a parsed deadline or arrival instant is never earlier than
`now`, and an instant whose same-day resolution lies in the past is
rolled forward by exactly one calendar day (1440 minutes). -/
theorem c8_instants_never_in_past (h m : Nat) (mer : Option Meridiem)
    (now : Nat) :
    (now ≤ deadlineValue h m mer now ∧ now ≤ arrivalValue h m mer now) ∧
      (todayInstant now (resolveHourDeadline h mer now) m < now →
        deadlineValue h m mer now =
          todayInstant now (resolveHourDeadline h mer now) m + 1440) ∧
      (todayInstant now (resolveHourArrival h mer) m < now →
        arrivalValue h m mer now =
          todayInstant now (resolveHourArrival h mer) m + 1440) := by
  refine ⟨⟨?_, ?_⟩, ?_, ?_⟩
  · simp only [deadlineValue, todayInstant]
    split <;> omega
  · simp only [arrivalValue, todayInstant]
    split <;> omega
  · intro hlt
    unfold deadlineValue
    exact if_pos hlt
  · intro hlt
    unfold arrivalValue
    exact if_pos hlt

/-- Witness for `c8_instants_never_in_past`: hour 5 with no marker at
`now = 360` (6:00 AM). -/
theorem c8_witness :
    360 ≤ deadlineValue 5 0 none 360 ∧ 360 ≤ arrivalValue 5 0 none 360 :=
  (c8_instants_never_in_past 5 0 none 360).1

/-- C3 fails on the code: a one-leg route (60-minute leg) with one task
produces a Drive step and a Stop step (the
`route.legs.length === 1` special case), and the arrival instant is
`now + 60 + 15` (leg duration plus allocated dwell), not `now + 60`. -/
theorem c3_counterexample :
    (buildTimeline [{ durationValue := 3600, end_address := "home" }]
        [("Pick up kids", 15)]
        [{ description := "Pick up kids", category := some "school" }]
        0).map (fun t => (t.steps.map TimelineStep.kind, t.arrivalTime)) =
      some ([StepKind.drive, StepKind.stop], 75) := by
  norm_num [buildTimeline, buildSteps, dwellFor, mapGet]

/-- Drive/stop step counts of the timeline-builder loop: every leg
contributes one drive step, and legs at indices below `total - 1`
contribute one stop step each (for routes of at least two legs). -/
theorem buildSteps_counts (alloc : List (String × Rat)) (tasks : List TaskD)
    (total : Nat) :
    ∀ (legs : List RouteLegT) (i : Nat) (clock : Rat)
      (p : List TimelineStep × Rat),
      buildSteps alloc tasks total legs i clock = some p →
      2 ≤ total → i + legs.length = total →
      p.1.countP (fun st => st.kind == StepKind.drive) = legs.length ∧
      p.1.countP (fun st => st.kind == StepKind.stop) = total - 1 - i := by
  intro legs
  induction legs with
  | nil =>
      intro i clock p h h2 hlen
      simp only [buildSteps, Option.some.injEq] at h
      subst h
      refine ⟨?_, ?_⟩ <;> simp at hlen ⊢ <;> omega
  | cons leg rest ih =>
      intro i clock p h h2 hlen
      simp only [List.length_cons] at hlen
      simp only [buildSteps] at h
      split at h
      · cases hg : tasks.get? i with
        | none =>
            rw [hg] at h
            simp at h
        | some task =>
            rw [hg] at h
            dsimp only at h
            cases hr : buildSteps alloc tasks total rest (i + 1)
                (clock + leg.durationValue / 60 +
                  dwellFor alloc task.description) with
            | none =>
                rw [hr] at h
                simp at h
            | some q =>
                obtain ⟨steps, c⟩ := q
                rw [hr] at h
                simp only [Option.some.injEq] at h
                subst h
                obtain ⟨hd, hs⟩ := ih (i + 1)
                  (clock + leg.durationValue / 60 +
                    dwellFor alloc task.description) (steps, c) hr h2
                  (by omega)
                refine ⟨?_, ?_⟩ <;>
                  simp [List.countP_cons, hd, hs] <;> omega
      · cases hr : buildSteps alloc tasks total rest (i + 1)
            (clock + leg.durationValue / 60) with
        | none =>
            rw [hr] at h
            simp at h
        | some q =>
            obtain ⟨steps, c⟩ := q
            rw [hr] at h
            simp only [Option.some.injEq] at h
            subst h
            obtain ⟨hd, hs⟩ := ih (i + 1) (clock + leg.durationValue / 60)
              (steps, c) hr h2 (by omega)
            refine ⟨?_, ?_⟩ <;>
              simp [List.countP_cons, hd, hs] <;> omega

/-- The running clock of the timeline-builder loop advances by exactly
the sum of the durations of the steps it appends. -/
theorem buildSteps_sum (alloc : List (String × Rat)) (tasks : List TaskD)
    (total : Nat) :
    ∀ (legs : List RouteLegT) (i : Nat) (clock : Rat)
      (p : List TimelineStep × Rat),
      buildSteps alloc tasks total legs i clock = some p →
      (p.1.map (fun st => st.duration)).sum = p.2 - clock := by
  intro legs
  induction legs with
  | nil =>
      intro i clock p h
      simp only [buildSteps, Option.some.injEq] at h
      subst h
      simp
  | cons leg rest ih =>
      intro i clock p h
      simp only [buildSteps] at h
      split at h
      · cases hg : tasks.get? i with
        | none =>
            rw [hg] at h
            simp at h
        | some task =>
            rw [hg] at h
            dsimp only at h
            cases hr : buildSteps alloc tasks total rest (i + 1)
                (clock + leg.durationValue / 60 +
                  dwellFor alloc task.description) with
            | none =>
                rw [hr] at h
                simp at h
            | some q =>
                obtain ⟨steps, c⟩ := q
                rw [hr] at h
                simp only [Option.some.injEq] at h
                subst h
                have hsum := ih (i + 1)
                  (clock + leg.durationValue / 60 +
                    dwellFor alloc task.description) (steps, c) hr
                simp only [List.map_cons, List.sum_cons] at hsum ⊢
                rw [hsum]
                ring
      · cases hr : buildSteps alloc tasks total rest (i + 1)
            (clock + leg.durationValue / 60) with
        | none =>
            rw [hr] at h
            simp at h
        | some q =>
            obtain ⟨steps, c⟩ := q
            rw [hr] at h
            simp only [Option.some.injEq] at h
            subst h
            have hsum := ih (i + 1) (clock + leg.durationValue / 60)
              (steps, c) hr
            simp only [List.map_cons, List.sum_cons] at hsum ⊢
            rw [hsum]
            ring

/-- On a non-empty leg list the timeline-builder loop's first appended
step starts at the incoming clock value. -/
theorem buildSteps_head (alloc : List (String × Rat)) (tasks : List TaskD)
    (total : Nat) (leg : RouteLegT) (rest : List RouteLegT) (i : Nat)
    (clock : Rat) (p : List TimelineStep × Rat)
    (h : buildSteps alloc tasks total (leg :: rest) i clock = some p) :
    ∃ s0 tl, p.1 = s0 :: tl ∧ s0.startTime = clock := by
  simp only [buildSteps] at h
  split at h
  · cases hg : tasks.get? i with
    | none =>
        rw [hg] at h
        simp at h
    | some task =>
        rw [hg] at h
        dsimp only at h
        cases hr : buildSteps alloc tasks total rest (i + 1)
            (clock + leg.durationValue / 60 +
              dwellFor alloc task.description) with
        | none =>
            rw [hr] at h
            simp at h
        | some q =>
            obtain ⟨steps, c⟩ := q
            rw [hr] at h
            simp only [Option.some.injEq] at h
            subst h
            exact ⟨_, _, rfl, rfl⟩
  · cases hr : buildSteps alloc tasks total rest (i + 1)
        (clock + leg.durationValue / 60) with
    | none =>
        rw [hr] at h
        simp at h
    | some q =>
        obtain ⟨steps, c⟩ := q
        rw [hr] at h
        simp only [Option.some.injEq] at h
        subst h
        exact ⟨_, _, rfl, rfl⟩

/-- C3 amended: `buildTimeline` appends a Stop step after every drive
leg except the one ending at the final destination — except that a
route of exactly one leg also gets a Stop after its only leg: a
multi-leg route of `n` legs yields `n` Drive steps and `n - 1` Stop
steps, while a one-leg route yields a Drive step followed by a Stop
step and its arrival instant is `now` plus the leg's duration plus the
allocated dwell (not `now` plus the leg's duration alone). -/
theorem c3_stop_steps_per_leg :
    (∀ (legs : List RouteLegT) (alloc : List (String × Rat))
        (tasks : List TaskD) (now : Rat) (t : Timeline),
      2 ≤ legs.length → buildTimeline legs alloc tasks now = some t →
        t.steps.countP (fun st => st.kind == StepKind.drive) = legs.length ∧
        t.steps.countP (fun st => st.kind == StepKind.stop) =
          legs.length - 1) ∧
      (∀ (leg : RouteLegT) (alloc : List (String × Rat)) (task : TaskD)
          (now : Rat) (t : Timeline),
        buildTimeline [leg] alloc [task] now = some t →
          t.steps.map TimelineStep.kind = [StepKind.drive, StepKind.stop] ∧
          t.arrivalTime =
            now + leg.durationValue / 60 + dwellFor alloc task.description) := by
  constructor
  · intro legs alloc tasks now t h2 h
    simp only [buildTimeline] at h
    cases hbs : buildSteps alloc tasks legs.length legs 0 now with
    | none =>
        rw [hbs] at h
        simp at h
    | some q =>
        obtain ⟨steps, c⟩ := q
        rw [hbs] at h
        cases steps with
        | nil => simp at h
        | cons x tl =>
            simp only [Option.some.injEq] at h
            subst h
            have hc := buildSteps_counts alloc tasks legs.length legs 0 now
              (x :: tl, c) hbs h2 (by omega)
            simpa using hc
  · intro leg alloc task now t h
    simp only [buildTimeline, buildSteps, List.length_cons,
      List.length_nil, Nat.add_sub_cancel, lt_self_iff_false, or_true,
      if_true, List.get?_cons_zero, Option.some.injEq] at h
    subst h
    constructor
    · rfl
    · rfl

/-- Witness for `c3_stop_steps_per_leg`: a two-leg route (60 s and
120 s legs) with one task and an empty allocation map yields two Drive
steps and one Stop step; a one-leg route yields kinds
`[drive, stop]`. -/
theorem c3_stop_steps_witness :
    (∃ t, buildTimeline
        [{ durationValue := 60, end_address := "a" },
         { durationValue := 120, end_address := "b" }]
        [] [{ description := "x", category := none }] 0 = some t ∧
      t.steps.countP (fun st => st.kind == StepKind.drive) = 2 ∧
      t.steps.countP (fun st => st.kind == StepKind.stop) = 1) := by
  have h : buildTimeline
      [{ durationValue := 60, end_address := "a" },
       { durationValue := 120, end_address := "b" }]
      [] [{ description := "x", category := none }] 0 =
      some { steps :=
               [{ kind := StepKind.drive, startTime := 0, endTime := 1,
                  duration := 1, location := none,
                  description := "Drive to a" },
                { kind := StepKind.stop, startTime := 1, endTime := 11,
                  duration := 10, location := some "a",
                  description := "x" },
                { kind := StepKind.drive, startTime := 11, endTime := 13,
                  duration := 2, location := none,
                  description := "Drive to b" }]
             totalDuration := 13
             arrivalTime := 13 } := by
    norm_num [buildTimeline, buildSteps, dwellFor, mapGet]
    exact ⟨rfl, rfl⟩
  refine ⟨_, h, ?_⟩
  have := (c3_stop_steps_per_leg.1
    [{ durationValue := 60, end_address := "a" },
     { durationValue := 120, end_address := "b" }]
    [] [{ description := "x", category := none }] 0 _ (by norm_num) h)
  simpa using this

/-- C9: for every timeline built from a route, the sum of the steps'
durations equals the arrival instant minus the first step's start
instant. -/
theorem c9_duration_sum_round_trip (legs : List RouteLegT)
    (alloc : List (String × Rat)) (tasks : List TaskD) (now : Rat)
    (t : Timeline) (s0 : TimelineStep)
    (h : buildTimeline legs alloc tasks now = some t)
    (h0 : t.steps.head? = some s0) :
    (t.steps.map (fun st => st.duration)).sum =
      t.arrivalTime - s0.startTime := by
  simp only [buildTimeline] at h
  cases hbs : buildSteps alloc tasks legs.length legs 0 now with
  | none =>
      rw [hbs] at h
      simp at h
  | some q =>
      obtain ⟨steps, c⟩ := q
      rw [hbs] at h
      cases steps with
      | nil => simp at h
      | cons x tl =>
          simp only [Option.some.injEq] at h
          subst h
          simp only [List.head?_cons, Option.some.injEq] at h0
          subst h0
          have hsum := buildSteps_sum alloc tasks legs.length legs 0 now
            (x :: tl, c) hbs
          cases legs with
          | nil =>
              simp [buildSteps] at hbs
          | cons leg rest =>
              obtain ⟨s0', tl', he, hst⟩ := buildSteps_head alloc tasks
                (leg :: rest).length leg rest 0 now (x :: tl, c) hbs
              simp only [List.cons.injEq] at he
              have hx : x.startTime = now := by
                rw [he.1]
                exact hst
              simpa [hx] using hsum

/-- A 60-second route leg used in concrete timeline scenarios. -/
def demoLeg : RouteLegT := { durationValue := 60, end_address := "x" }

/-- A task used in concrete timeline scenarios. -/
def demoTask : TaskD := { description := "t", category := none }

/-- The drive step `buildTimeline` produces for `demoLeg` from
`now = 0`. -/
def demoDrive : TimelineStep :=
  { kind := StepKind.drive
    startTime := 0
    endTime := 1
    duration := 1
    location := none
    description := "Drive to x" }

/-- The stop step `buildTimeline` produces for `demoTask` (default
10-minute dwell) after `demoDrive`. -/
def demoStop : TimelineStep :=
  { kind := StepKind.stop
    startTime := 1
    endTime := 11
    duration := 10
    location := some "x"
    description := "t" }

/-- The timeline `buildTimeline` produces for the one-leg route
`[demoLeg]` with task `demoTask`, empty allocation map and
`now = 0`. -/
def demoTimeline : Timeline :=
  { steps := [demoDrive, demoStop]
    totalDuration := 11
    arrivalTime := 11 }

/-- Witness for `c9_duration_sum_round_trip` on the one-leg demo
route. -/
theorem c9_witness :
    (demoTimeline.steps.map (fun st => st.duration)).sum =
      demoTimeline.arrivalTime - demoDrive.startTime := by
  refine c9_duration_sum_round_trip [demoLeg] [] [demoTask] 0
    demoTimeline demoDrive ?_ ?_
  · norm_num [buildTimeline, buildSteps, dwellFor, mapGet, demoLeg,
      demoTask, demoTimeline, demoDrive, demoStop]
    exact rfl
  · rfl

/-- C4 fails on the code: with a deadline equal to `now`
(`totalAvailable = 0`), `calculateTimeBudget` returns an ordinary
`TimeBudget` record — negative dwell time and a floor-5 allocation —
with no distinguished "no budget" variant. -/
theorem c4_counterexample :
    calculateTimeBudget [{ durationValue := 3600, end_address := "home" }]
        { tcType := TCKind.deadline, value := 100 }
        [{ description := "Get groceries", category := some "grocery" }]
        100 =
      some { totalAvailable := 0
             drivingTime := 60
             bufferTime := 0
             dwellTime := -60
             stopAllocations := [("Get groceries", 5)] } := by
  simp [calculateTimeBudget, allocateDwellTime, allocStep1, allocStep3,
    typicalLookup, mapGet, mapSet, TYPICAL_DWELL_TIMES]
  norm_num

/-- C4 amended: when the computed total available time is non-positive,
`calculateTimeBudget` does not crash, but it also returns no explicit
"no budget" value: the result is an ordinary `TimeBudget` whose
`bufferTime` and `dwellTime` are non-positive (for non-negative leg
durations), and underflow is visible to callers only through these
numeric fields. -/
theorem c4_budget_underflow_ordinary_result (legs : List RouteLegT)
    (tc : TimeConstraintD) (tasks : List TaskD) (now : Rat) (b : TimeBudget)
    (h : calculateTimeBudget legs tc tasks now = some b)
    (hta : b.totalAvailable ≤ 0)
    (hdur : ∀ l ∈ legs, 0 ≤ l.durationValue) :
    b.bufferTime ≤ 0 ∧ b.dwellTime ≤ 0 := by
  simp only [calculateTimeBudget] at h
  split at h
  · exact absurd h (by simp)
  · simp only [Option.some.injEq] at h
    subst h
    simp only at hta ⊢
    have hdrive : 0 ≤ (legs.map (fun l => l.durationValue)).sum / 60 := by
      have : 0 ≤ (legs.map (fun l => l.durationValue)).sum := by
        refine List.sum_nonneg ?_
        intro x hx
        obtain ⟨l, hl, rfl⟩ := List.mem_map.mp hx
        exact hdur l hl
      positivity
    constructor
    · nlinarith
    · nlinarith

/-- Witness for `c4_budget_underflow_ordinary_result` at a deadline
equal to `now`. -/
theorem c4_witness :
    ∃ b, calculateTimeBudget
        [{ durationValue := 3600, end_address := "home" }]
        { tcType := TCKind.deadline, value := 100 }
        [{ description := "Get groceries", category := some "grocery" }]
        100 = some b ∧ b.bufferTime ≤ 0 ∧ b.dwellTime ≤ 0 := by
  have h : calculateTimeBudget
      [{ durationValue := 3600, end_address := "home" }]
      { tcType := TCKind.deadline, value := 100 }
      [{ description := "Get groceries", category := some "grocery" }]
      100 =
      some { totalAvailable := 0
             drivingTime := 60
             bufferTime := 0
             dwellTime := -60
             stopAllocations := [("Get groceries", 5)] } := by
    simp [calculateTimeBudget, allocateDwellTime, allocStep1, allocStep3,
      typicalLookup, mapGet, mapSet, TYPICAL_DWELL_TIMES]
    norm_num
  refine ⟨_, h, c4_budget_underflow_ordinary_result _ _ _ _ _ h ?_ ?_⟩
  · norm_num
  · intro l hl
    simp only [List.mem_singleton] at hl
    subst hl
    norm_num

/-- Looking up the key just set returns the new value. -/
theorem mapGet_mapSet_self (m : List (String × Rat)) (k : String) (v : Rat) :
    mapGet (mapSet m k v) k = some v := by
  induction m with
  | nil => simp [mapSet, mapGet]
  | cons kv rest ih =>
      obtain ⟨k', v'⟩ := kv
      by_cases hk : k' = k
      · subst hk
        simp [mapSet, mapGet]
      · simp [mapSet, mapGet, hk, ih]

/-- Setting one key leaves lookups of other keys unchanged. -/
theorem mapGet_mapSet_ne (m : List (String × Rat)) (k k2 : String)
    (v : Rat) (h : k ≠ k2) : mapGet (mapSet m k v) k2 = mapGet m k2 := by
  induction m with
  | nil => simp [mapSet, mapGet, h]
  | cons kv rest ih =>
      obtain ⟨k', v'⟩ := kv
      by_cases hk : k' = k
      · subst hk
        simp [mapSet, mapGet, h]
      · simp only [mapSet, if_neg hk]
        by_cases hk2 : k' = k2
        · simp [mapGet, hk2]
        · simp [mapGet, hk2, ih]

/-- If the first allocation pass succeeds, every task's category had a
dwell-time table entry. -/
theorem allocStep1_lookups (tasks : List TaskD) :
    ∀ (m : List (String × Rat)) (tot : Rat) q,
      allocStep1 tasks m tot = some q →
      ∀ t ∈ tasks, (typicalLookup t.category).isSome := by
  induction tasks with
  | nil => intro m tot q _ t ht; simp at ht
  | cons u ts ih =>
      intro m tot q h t ht
      simp only [allocStep1] at h
      cases hu : typicalLookup u.category with
      | none => rw [hu] at h; simp at h
      | some typ =>
          rw [hu] at h
          dsimp only at h
          rcases List.mem_cons.mp ht with rfl | hts
          · simp [hu]
          · exact ih _ _ q h t hts

/-- The first allocation pass leaves keys that are no task's
description unchanged. -/
theorem allocStep1_get_other (tasks : List TaskD) :
    ∀ (m : List (String × Rat)) (tot : Rat) q (k : String),
      allocStep1 tasks m tot = some q →
      (∀ t ∈ tasks, t.description ≠ k) →
      mapGet q.1 k = mapGet m k := by
  induction tasks with
  | nil =>
      intro m tot q k h _
      simp only [allocStep1, Option.some.injEq] at h
      subst h
      rfl
  | cons u ts ih =>
      intro m tot q k h hk
      simp only [allocStep1] at h
      cases hu : typicalLookup u.category with
      | none => rw [hu] at h; simp at h
      | some typ =>
          rw [hu] at h
          dsimp only at h
          have := ih _ _ q k h (fun t ht => hk t (List.mem_cons_of_mem _ ht))
          rw [this, mapGet_mapSet_ne]
          exact hk u (List.mem_cons_self _ _)

/-- After the first allocation pass, a task list with pairwise distinct
descriptions has each description mapped to its category's typical
time. -/
theorem allocStep1_get_mem (tasks : List TaskD)
    (hdist : tasks.Pairwise (fun a b => a.description ≠ b.description)) :
    ∀ (m : List (String × Rat)) (tot : Rat) q,
      allocStep1 tasks m tot = some q →
      ∀ t ∈ tasks, ∀ typ, typicalLookup t.category = some typ →
        mapGet q.1 t.description = some typ := by
  induction tasks with
  | nil => intro m tot q _ t ht; simp at ht
  | cons u ts ih =>
      intro m tot q h t ht typ htyp
      simp only [allocStep1] at h
      cases hu : typicalLookup u.category with
      | none => rw [hu] at h; simp at h
      | some typu =>
          rw [hu] at h
          dsimp only at h
          rcases List.mem_cons.mp ht with rfl | hts
          · have hne : ∀ s ∈ ts, s.description ≠ t.description := by
              intro s hs
              exact ((List.pairwise_cons.mp hdist).1 s hs).symm
            have := allocStep1_get_other ts _ _ q t.description h hne
            rw [this, mapGet_mapSet_self]
            rw [hu] at htyp
            exact htyp
          · exact ih (List.pairwise_cons.mp hdist).2 _ _ q h t hts typ htyp

/-- Setting a key preserves presence of any key. -/
theorem mapGet_mapSet_isSome (m : List (String × Rat)) (k k2 : String)
    (v : Rat) (h : (mapGet m k2).isSome) :
    (mapGet (mapSet m k v) k2).isSome := by
  by_cases hk : k = k2
  · subst hk
    simp [mapGet_mapSet_self]
  · rwa [mapGet_mapSet_ne m k k2 v hk]

/-- The rescaling pass succeeds whenever every task's description is
present in the map. -/
theorem allocStep3_some (scaleFactor : Rat) (tasks : List TaskD) :
    ∀ (m : List (String × Rat)),
      (∀ t ∈ tasks, (mapGet m t.description).isSome) →
      ∃ m2, allocStep3 scaleFactor tasks m = some m2 := by
  induction tasks with
  | nil => intro m _; exact ⟨m, rfl⟩
  | cons u ts ih =>
      intro m hm
      have hu := hm u (List.mem_cons_self _ _)
      obtain ⟨typ, htyp⟩ := Option.isSome_iff_exists.mp hu
      obtain ⟨m2, hm2⟩ := ih
        (mapSet m u.description
          (max (5 : Rat) ((⌊typ * scaleFactor⌋ : Int) : Rat)))
        (fun t ht => mapGet_mapSet_isSome _ _ _ _
          (hm t (List.mem_cons_of_mem _ ht)))
      refine ⟨m2, ?_⟩
      simp only [allocStep3, htyp]
      exact hm2

/-- The rescaling pass leaves keys that are no task's description
unchanged. -/
theorem allocStep3_get_other (scaleFactor : Rat) (tasks : List TaskD) :
    ∀ (m : List (String × Rat)) m2 (k : String),
      allocStep3 scaleFactor tasks m = some m2 →
      (∀ t ∈ tasks, t.description ≠ k) →
      mapGet m2 k = mapGet m k := by
  induction tasks with
  | nil =>
      intro m m2 k h _
      simp only [allocStep3, Option.some.injEq] at h
      subst h
      rfl
  | cons u ts ih =>
      intro m m2 k h hk
      simp only [allocStep3] at h
      cases hu : mapGet m u.description with
      | none => rw [hu] at h; simp at h
      | some typ =>
          rw [hu] at h
          dsimp only at h
          have := ih _ m2 k h (fun t ht => hk t (List.mem_cons_of_mem _ ht))
          rw [this, mapGet_mapSet_ne]
          exact hk u (List.mem_cons_self _ _)

/-- After the rescaling pass, a task list with pairwise distinct
descriptions has each description mapped to
`max 5 ⌊typical × ratio⌋` where `typical` was its entry before the
pass. -/
theorem allocStep3_get_mem (scaleFactor : Rat) (tasks : List TaskD)
    (hdist : tasks.Pairwise (fun a b => a.description ≠ b.description)) :
    ∀ (m : List (String × Rat)) m2,
      allocStep3 scaleFactor tasks m = some m2 →
      ∀ t ∈ tasks, ∀ typ, mapGet m t.description = some typ →
        mapGet m2 t.description =
          some (max (5 : Rat) ((⌊typ * scaleFactor⌋ : Int) : Rat)) := by
  induction tasks with
  | nil => intro m m2 _ t ht; simp at ht
  | cons u ts ih =>
      intro m m2 h t ht typ htyp
      simp only [allocStep3] at h
      cases hu : mapGet m u.description with
      | none => rw [hu] at h; simp at h
      | some typu =>
          rw [hu] at h
          dsimp only at h
          rcases List.mem_cons.mp ht with rfl | hts
          · have hne : ∀ s ∈ ts, s.description ≠ t.description := by
              intro s hs
              exact ((List.pairwise_cons.mp hdist).1 s hs).symm
            have := allocStep3_get_other scaleFactor ts _ m2 t.description
              h hne
            rw [this, mapGet_mapSet_self]
            rw [hu] at htyp
            obtain rfl : typu = typ := by simpa using htyp
            rfl
          · have htyp2 : mapGet
                (mapSet m u.description
                  (max (5 : Rat) ((⌊typu * scaleFactor⌋ : Int) : Rat)))
                t.description = some typ := by
              rw [mapGet_mapSet_ne]
              · exact htyp
              · exact (List.pairwise_cons.mp hdist).1 t hts
            exact ih (List.pairwise_cons.mp hdist).2 _ m2 h t hts typ htyp2

/-- C5 fails on the code when two tasks share a description: with tasks
`("x", school)` (default 5) and `("x", grocery)` (default 20) and
`dwellMinutes = 25` (`totalTypical = 25`, ratio 1), the allocation map —
keyed by description — holds 20 for `"x"`, so the first task is not
assigned its own `max(5, floor(5 × 1)) = 5`. -/
theorem c5_counterexample :
    allocateDwellTime
        [{ description := "x", category := some "school" },
         { description := "x", category := some "grocery" }] 25 =
      some [("x", 20)] ∧
      ¬ (20 : Rat) =
        max (5 : Rat) ((⌊(5 : Rat) * ((25 : Rat) / 25)⌋ : Int) : Rat) := by
  constructor
  · simp [allocateDwellTime, allocStep1, allocStep3, typicalLookup,
      mapGet, mapSet, TYPICAL_DWELL_TIMES]
    norm_num
  · norm_num

/-- C5 amended: for a non-empty task list with pairwise distinct
descriptions whose categories all have table defaults and whose
defaults sum (`totalTypical`, computed by the first pass) is positive,
every task's final allocation is exactly
`max(5, floor(default × dwellMinutes / totalTypical))`. -/
theorem c5_allocations_scaled (tasks : List TaskD) (dwell : Rat)
    (m0 : List (String × Rat)) (tot : Rat)
    (h1 : allocStep1 tasks [] 0 = some (m0, tot))
    (htot : 0 < tot)
    (hdist : tasks.Pairwise (fun a b => a.description ≠ b.description)) :
    ∃ m, allocateDwellTime tasks dwell = some m ∧
      ∀ t ∈ tasks, ∀ typ, typicalLookup t.category = some typ →
        mapGet m t.description =
          some (max (5 : Rat) ((⌊typ * (dwell / tot)⌋ : Int) : Rat)) := by
  have hl := allocStep1_lookups tasks [] 0 (m0, tot) h1
  have hm0 : ∀ t ∈ tasks, (mapGet m0 t.description).isSome := by
    intro t ht
    obtain ⟨typ, htyp⟩ := Option.isSome_iff_exists.mp (hl t ht)
    have := allocStep1_get_mem tasks hdist [] 0 (m0, tot) h1 t ht typ htyp
    simp [this]
  obtain ⟨m2, hm2⟩ := allocStep3_some (dwell / tot) tasks m0 hm0
  refine ⟨m2, ?_, ?_⟩
  · unfold allocateDwellTime
    rw [h1]
    exact hm2
  · intro t ht typ htyp
    have hg := allocStep1_get_mem tasks hdist [] 0 (m0, tot) h1 t ht typ htyp
    exact allocStep3_get_mem (dwell / tot) tasks hdist m0 m2 hm2 t ht typ hg

/-- Witness for `c5_allocations_scaled`: three distinct tasks with
defaults 20, 15, 10 (`totalTypical = 45`) and `dwellMinutes = 30`
(ratio 2/3) receive 13, 10 and 6 minutes. -/
theorem c5_witness :
    ∃ m, allocateDwellTime
        [{ description := "a", category := some "grocery" },
         { description := "b", category := some "restaurant" },
         { description := "c", category := some "coffee" }] 30 = some m ∧
      mapGet m "a" = some 13 ∧ mapGet m "b" = some 10 ∧
      mapGet m "c" = some 6 := by
  have h1 : allocStep1
      [{ description := "a", category := some "grocery" },
       { description := "b", category := some "restaurant" },
       { description := "c", category := some "coffee" }] [] 0 =
      some ([("a", 20), ("b", 15), ("c", 10)], 45) := by
    simp [allocStep1, typicalLookup, mapGet, mapSet, TYPICAL_DWELL_TIMES]
    norm_num
  obtain ⟨m, hm, hv⟩ := c5_allocations_scaled
    [{ description := "a", category := some "grocery" },
     { description := "b", category := some "restaurant" },
     { description := "c", category := some "coffee" }] 30
    [("a", 20), ("b", 15), ("c", 10)] 45 h1 (by norm_num) (by decide)
  refine ⟨m, hm, ?_, ?_, ?_⟩
  · have := hv { description := "a", category := some "grocery" }
      (by decide) 20
      (by simp [typicalLookup, mapGet, TYPICAL_DWELL_TIMES])
    rw [this]
    norm_num
  · have := hv { description := "b", category := some "restaurant" }
      (by decide) 15
      (by simp [typicalLookup, mapGet, TYPICAL_DWELL_TIMES])
    rw [this]
    norm_num
  · have := hv { description := "c", category := some "coffee" }
      (by decide) 10
      (by simp [typicalLookup, mapGet, TYPICAL_DWELL_TIMES])
    rw [this]
    norm_num

/-- A successful run of the leg loop is preserved (with the same
result) under any larger iteration budget. -/
theorem gasLegLoop_mono (v mf ld : Rat) (leg : GasLeg) :
    ∀ (n k : Nat) (rem : Rat) (s t : GasState),
      gasLegLoop v mf ld leg n rem s = some t →
      gasLegLoop v mf ld leg (n + k) rem s = some t := by
  intro n
  induction n with
  | zero =>
      intro k rem s t h
      simp only [gasLegLoop] at h
      by_cases hrem : rem > 0
      · rw [if_pos hrem] at h
        exact absurd h (by simp)
      · rw [if_neg hrem] at h
        simp only [Nat.zero_add]
        cases k with
        | zero => simp only [gasLegLoop]; rw [if_neg hrem]; exact h
        | succ k2 => simp only [gasLegLoop]; rw [if_neg hrem]; exact h
  | succ n ih =>
      intro k rem s t h
      simp only [gasLegLoop] at h
      have hsk : n + 1 + k = n + k + 1 := by omega
      rw [hsk]
      simp only [gasLegLoop]
      by_cases hrem : rem > 0
      · rw [if_pos hrem] at h ⊢
        by_cases hle : rem ≤ s.currentFuel - mf
        · rw [if_pos hle] at h ⊢
          exact h
        · rw [if_neg hle] at h ⊢
          exact ih k _ _ t h
      · rw [if_neg hrem] at h ⊢
        exact h

/-- A successful run of the per-leg fold is preserved (with the same
result) under any larger iteration budget. -/
theorem gasLegsLoop_mono (v mf : Rat) :
    ∀ (legs : List GasLeg) (n k : Nat) (s t : GasState),
      gasLegsLoop v mf n legs s = some t →
      gasLegsLoop v mf (n + k) legs s = some t := by
  intro legs
  induction legs with
  | nil =>
      intro n k s t h
      simpa [gasLegsLoop] using h
  | cons leg rest ih =>
      intro n k s t h
      simp only [gasLegsLoop] at h ⊢
      cases hleg : gasLegLoop v mf (leg.distanceValue / metersPerMile) leg n
          (leg.distanceValue / metersPerMile) s with
      | none => rw [hleg] at h; simp at h
      | some s2 =>
          rw [hleg] at h
          dsimp only at h
          rw [gasLegLoop_mono v mf _ leg n k _ s s2 hleg]
          exact ih n k s2 t h

/-- With a full tank and `rem ≤ k × safeRange`, `k + 1` iterations
exhaust the leg: after the first refuel each iteration consumes exactly
the positive safe range. -/
theorem gasLegLoop_full (v mf ld : Rat) (leg : GasLeg)
    (hsafe : 0 < v - mf) :
    ∀ (k : Nat) (rem : Rat) (s : GasState), s.currentFuel = v →
      rem ≤ (k : Rat) * (v - mf) →
      ∃ t, gasLegLoop v mf ld leg (k + 1) rem s = some t := by
  intro k
  induction k with
  | zero =>
      intro rem s _ hrem
      have hrem0 : ¬ rem > 0 := by
        simp only [Nat.cast_zero, zero_mul] at hrem
        exact not_lt.mpr hrem
      exact ⟨s, by simp only [gasLegLoop]; rw [if_neg hrem0]⟩
  | succ k ih =>
      intro rem s hfuel hrem
      by_cases hrem0 : rem > 0
      · by_cases hle : rem ≤ s.currentFuel - mf
        · exact ⟨_, by simp only [gasLegLoop]; rw [if_pos hrem0, if_pos hle]⟩
        · have hrem2 : rem - (s.currentFuel - mf) ≤ (k : Rat) * (v - mf) := by
            rw [hfuel]
            push_cast at hrem
            linarith
          obtain ⟨t, ht⟩ := ih (rem - (s.currentFuel - mf))
            { currentFuel := v
              totalDistanceCovered :=
                s.totalDistanceCovered + (s.currentFuel - mf)
              stops := s.stops ++
                [{ distance := s.totalDistanceCovered + (s.currentFuel - mf)
                   location :=
                     interpolatePoint leg ((s.currentFuel - mf) / ld) }] }
            rfl hrem2
          refine ⟨t, ?_⟩
          simp only [gasLegLoop]
          rw [if_pos hrem0, if_neg hle]
          rw [hfuel] at ht ⊢
          exact ht
      · exact ⟨s, by simp only [gasLegLoop]; rw [if_neg hrem0]⟩

/-- The leg loop finishes from any starting fuel level: at most one
refuel restores a full tank, after which `gasLegLoop_full` applies. -/
theorem gasLegLoop_total (v mf ld : Rat) (leg : GasLeg)
    (hsafe : 0 < v - mf) (rem : Rat) (s : GasState) :
    ∃ n t, gasLegLoop v mf ld leg n rem s = some t := by
  by_cases hrem0 : rem > 0
  · by_cases hle : rem ≤ s.currentFuel - mf
    · exact ⟨1, _, by simp only [gasLegLoop]; rw [if_pos hrem0, if_pos hle]⟩
    · obtain ⟨k, hk⟩ := exists_nat_ge ((rem - (s.currentFuel - mf)) / (v - mf))
      have hkb : rem - (s.currentFuel - mf) ≤ (k : Rat) * (v - mf) := by
        rw [div_le_iff hsafe] at hk
        linarith
      obtain ⟨t, ht⟩ := gasLegLoop_full v mf ld leg hsafe k
        (rem - (s.currentFuel - mf))
        { currentFuel := v
          totalDistanceCovered := s.totalDistanceCovered + (s.currentFuel - mf)
          stops := s.stops ++
            [{ distance := s.totalDistanceCovered + (s.currentFuel - mf)
               location := interpolatePoint leg ((s.currentFuel - mf) / ld) }] }
        rfl hkb
      refine ⟨k + 1 + 1, t, ?_⟩
      simp only [gasLegLoop]
      rw [if_pos hrem0, if_neg hle]
      exact ht
  · exact ⟨0, s, by simp only [gasLegLoop]; rw [if_neg hrem0]⟩

/-- The whole per-leg fold finishes: combine per-leg budgets with
monotonicity. -/
theorem gasLegsLoop_total (v mf : Rat) (hsafe : 0 < v - mf) :
    ∀ (legs : List GasLeg) (s : GasState),
      ∃ n t, gasLegsLoop v mf n legs s = some t := by
  intro legs
  induction legs with
  | nil => intro s; exact ⟨0, s, rfl⟩
  | cons leg rest ih =>
      intro s
      obtain ⟨n1, s2, h1⟩ := gasLegLoop_total v mf
        (leg.distanceValue / metersPerMile) leg hsafe
        (leg.distanceValue / metersPerMile) s
      obtain ⟨n2, t, h2⟩ := ih s2
      refine ⟨max n1 n2, t, ?_⟩
      simp only [gasLegsLoop]
      have h1m : gasLegLoop v mf (leg.distanceValue / metersPerMile) leg
          (max n1 n2) (leg.distanceValue / metersPerMile) s = some s2 := by
        have := gasLegLoop_mono v mf (leg.distanceValue / metersPerMile) leg
          n1 (max n1 n2 - n1) (leg.distanceValue / metersPerMile) s s2 h1
        rwa [Nat.add_sub_cancel' (le_max_left n1 n2)] at this
      rw [h1m]
      have := gasLegsLoop_mono v mf rest n2 (max n1 n2 - n2) s2 t h2
      rwa [Nat.add_sub_cancel' (le_max_right n1 n2)] at this

/-- C10: for a positive vehicle range and a minimum-fuel threshold
below 1, the fuel simulator finishes on every route with some finite
iteration budget — even when the initial fuel is already below the
threshold. -/
theorem c10_simulator_terminates (legs : List GasLeg)
    (fuelLevel vehicleRange minimumFuelThreshold : Rat)
    (hv : 0 < vehicleRange) (hth : minimumFuelThreshold < 1) :
    ∃ n, (calculateGasStops n legs fuelLevel vehicleRange
        minimumFuelThreshold).isSome := by
  have hsafe : 0 < vehicleRange - minimumFuelThreshold * vehicleRange := by
    nlinarith
  obtain ⟨n, t, h⟩ := gasLegsLoop_total vehicleRange
    (minimumFuelThreshold * vehicleRange) hsafe legs
    { currentFuel := fuelLevel * vehicleRange
      totalDistanceCovered := 0
      stops := [] }
  refine ⟨n, ?_⟩
  simp only [calculateGasStops]
  rw [h]
  rfl

/-- Witness for `c10_simulator_terminates` on the 500-mile single-leg
scenario. -/
theorem c10_witness :
    ∃ n, (calculateGasStops n [leg500] 1 300 (1/5)).isSome :=
  c10_simulator_terminates [leg500] 1 300 (1/5) (by norm_num) (by norm_num)
